import Mathlib

/-!
Verification of the access-scoped retrieval ranking engine of the RAG
repository.  The Python modules `src/utils/rebac.py`, `src/config/access.py`,
`src/utils/gatekeeper.py`, `src/services/rag_service.py` and
`src/utils/temporal_ranking.py` are shallowly embedded below: Python dicts
with fixed string keys become `if`-chains or structures with `Option` fields,
Python sets of strings become `Finset String`, floats become `ℚ` where only
comparisons occur (gatekeeper) and `ℝ` where logarithms occur (freshness),
exceptions become `Except String`.
-/

namespace RAG

/-! ## Embedding of `src/utils/rebac.py` -/

/-- `ALL_ACCESS_TAGS` from `rebac.py` (the four members of `AccessTag`). -/
def ALL_ACCESS_TAGS : List String := ["public", "friend", "internal", "hr_sensitive"]

/-- The row of `REBAC_MATRIX` for `SELF`. -/
def rebacRowSelf : List String := ["public", "friend", "internal", "hr_sensitive"]

/-- The row of `REBAC_MATRIX` for `STRANGER`. -/
def rebacRowStranger : List String := ["public"]

/-- The row of `REBAC_MATRIX` for `FRIEND`. -/
def rebacRowFriend : List String := ["public", "friend"]

/-- The row of `REBAC_MATRIX` for `COLLEAGUE`. -/
def rebacRowColleague : List String := ["public", "internal"]

/-- The row of `REBAC_MATRIX` for `RECRUITING`. -/
def rebacRowRecruiting : List String := ["public", "hr_sensitive"]

/-- `REBAC_MATRIX.get(relationship, REBAC_MATRIX["STRANGER"])`:
the dict lookup of `get_allowed_tags_for_relationship` in `rebac.py`
(and identically `AccessConfig.get_allowed_tags` in `config/access.py`),
falling back to the `STRANGER` row for unknown keys. -/
def get_allowed_tags_for_relationship (relationship : String) : List String :=
  if relationship = "SELF" then rebacRowSelf
  else if relationship = "STRANGER" then rebacRowStranger
  else if relationship = "FRIEND" then rebacRowFriend
  else if relationship = "COLLEAGUE" then rebacRowColleague
  else if relationship = "RECRUITING" then rebacRowRecruiting
  else rebacRowStranger

/-- `combine_allowed_tags` from `rebac.py`: fold the relationship list into a
set union of the per-relationship tag rows.  Python builds a `set` and returns
`list(set)` with unspecified order; the set is modelled as a `Finset`. -/
def combine_allowed_tags (relationships : List String) : Finset String :=
  relationships.foldl (fun acc rel => acc ∪ (get_allowed_tags_for_relationship rel).toFinset) ∅

/-- `AccessConfig.combine_tags` from `config/access.py`: the same fold as
`combine_allowed_tags`, duplicated in the source in the config module. -/
def AccessConfig_combine_tags (relationships : List String) : Finset String :=
  relationships.foldl (fun acc rel => acc ∪ (get_allowed_tags_for_relationship rel).toFinset) ∅

/-- The `AccessScope` dataclass from `rebac.py`; `allowed_tags` is the Python
set underlying the stored `list(set)`. -/
structure AccessScope where
  viewer_id : String
  target_id : String
  relationships : List String
  allowed_tags : Finset String
  is_self : Bool
deriving DecidableEq

/-- `AccessScope.can_access` from `rebac.py`: an empty claim-tag list is
treated as public, otherwise access is granted when any claim tag is among the
allowed tags. -/
def AccessScope.can_access (s : AccessScope) (claim_tags : List String) : Bool :=
  if claim_tags = [] then "public" ∈ s.allowed_tags
  else claim_tags.any (fun tag => tag ∈ s.allowed_tags)

/-- `query_relationships` from `rebac.py`.  The Neo4j client is modelled by the
outcome of its `run_query` call for the (viewer, target) pair: either a list of
relationship-type strings or a raised exception.  On exception the function
logs and returns the empty list. -/
def query_relationships (queryResult : Except String (List String)) : List String :=
  match queryResult with
  | .ok rows => rows
  | .error _ => []

/-- `determine_access_scope` from `rebac.py`: `SELF` short-circuit when viewer
equals target, otherwise query relationships, defaulting an empty result to
`STRANGER`, then combine the allowed tags. -/
def determine_access_scope (viewer_id target_id : String)
    (queryResult : Except String (List String)) : AccessScope :=
  if viewer_id = target_id then
    { viewer_id := viewer_id
      target_id := target_id
      relationships := ["SELF"]
      allowed_tags := rebacRowSelf.toFinset
      is_self := true }
  else
    let relationships0 := query_relationships queryResult
    let relationships := if relationships0 = [] then ["STRANGER"] else relationships0
    { viewer_id := viewer_id
      target_id := target_id
      relationships := relationships
      allowed_tags := combine_allowed_tags relationships
      is_self := false }

/-- `convert_access_level_to_tags` from `rebac.py`: the legacy access-level
dict lookup, with `public` as default for unknown levels.  Note the source
maps `private` to the empty tag list. -/
def convert_access_level_to_tags (access_level : String) : List String :=
  if access_level = "public" then ["public"]
  else if access_level = "private" then []
  else if access_level = "connections_only" then ["friend", "internal"]
  else if access_level = "recruiter" then ["hr_sensitive"]
  else ["public"]

/-- The fields of a claim dict read by `filter_claims_by_access`:
`access_tags` (via `get` with default `[]`) and the legacy `access_level`
(`none` models an absent key). -/
structure RClaim where
  access_tags : List String
  access_level : Option String
deriving Repr, DecidableEq

/-- The effective tag list computed inside the loop of
`filter_claims_by_access`: use `access_tags` unless it is empty and the claim
carries a legacy `access_level`, in which case convert that level. -/
def effective_access_tags (c : RClaim) : List String :=
  if c.access_tags = [] then
    match c.access_level with
    | some lv => convert_access_level_to_tags lv
    | none => []
  else c.access_tags

/-- `filter_claims_by_access` from `rebac.py`: keep the claims whose effective
tags pass `access_scope.can_access`. -/
def filter_claims_by_access (claims : List RClaim) (access_scope : AccessScope) :
    List RClaim :=
  claims.filter (fun c => access_scope.can_access (effective_access_tags c))

/-! ## Embedding of `src/utils/gatekeeper.py` and
`RAGService._filter_by_access` from `src/services/rag_service.py`

Confidence scores only ever get compared against the floor here, so floats are
modelled as `ℚ`. -/

/-- `CONFIDENCE_SCORES['base_self_declared']` (`config/access.py`). -/
def base_self_declared : ℚ := 3/10

/-- `MIN_CONFIDENCE_FOR_RAG` = `AccessConfig.CONFIDENCE.min_for_rag` (`config/access.py`). -/
def MIN_CONFIDENCE_FOR_RAG : ℚ := 3/10

/-- `VERIFIED_STATUSES` (`config/access.py`): attested and self-declared. -/
def VERIFIED_STATUSES : List String := ["attested", "self_declared"]

/-- The fields of a metadata dict read by `gatekeeper_filter` and
`RAGService._filter_by_access`; `none` models an absent key. -/
structure Meta where
  user_id : Option String
  source : Option String
  access_level : Option String
  status : Option String
  verified : Option Bool
  confidence_score : Option ℚ
deriving DecidableEq

/-- Python `m.get("user_id") or m.get("source")`: `or` falls through on falsy
values, i.e. on `None` and on the empty string. -/
def pyOrStr (a b : Option String) : Option String :=
  match a with
  | some s => if s = "" then b else some s
  | none => b

/-- The loop body of `gatekeeper_filter` (identical in
`RAGService._filter_by_access`): scope check, confidence floor, then the
owner / recruiter / public access-control cases.  Returns `true` when the
record index is appended to `allowed_indices`. -/
def gatekeeper_keep (m : Meta) (target_user_id viewer_id viewer_role : String)
    (min_confidence : ℚ) : Bool :=
  if pyOrStr m.user_id m.source ≠ some target_user_id then false
  else
    let access_level := m.access_level.getD "public"
    let status := m.status.getD "self_declared"
    let is_verified := m.verified.getD (status ∈ VERIFIED_STATUSES)
    let confidence := m.confidence_score.getD base_self_declared
    if confidence < min_confidence then false
    else if viewer_id = target_user_id then true
    else if viewer_role = "Recruiter" then
      if access_level = "public" then true
      else if (access_level = "connections_only" ∨ access_level = "recruiter")
          ∧ is_verified then true
      else false
    else access_level = "public"

/-- `gatekeeper_filter` from `utils/gatekeeper.py`: enumerate the metadata
records and return the indices that pass `gatekeeper_keep`; a `none`
`min_confidence` argument defaults to `MIN_CONFIDENCE_FOR_RAG`. -/
def gatekeeper_filter (metadata : List Meta) (target_user_id viewer_id : String)
    (viewer_role : String) (min_confidence : Option ℚ) : List Nat :=
  let minConf := min_confidence.getD MIN_CONFIDENCE_FOR_RAG
  (metadata.enum.filter
    (fun p => gatekeeper_keep p.2 target_user_id viewer_id viewer_role minConf)).map
    (fun p => p.1)

/-- `RAGService._filter_by_access` from `services/rag_service.py`: the same
enumeration loop with the floor fixed to `AccessConfig.CONFIDENCE.min_for_rag`. -/
def RAGService_filter_by_access (metadata : List Meta)
    (target_user_id viewer_id viewer_role : String) : List Nat :=
  (metadata.enum.filter
    (fun p => gatekeeper_keep p.2 target_user_id viewer_id viewer_role
      MIN_CONFIDENCE_FOR_RAG)).map
    (fun p => p.1)

/-! ## Embedding of `src/utils/temporal_ranking.py`

Python `datetime` values are modelled by a wall-clock reading in days (`ℚ`)
together with an optional timezone offset (`none` = naive).  Mixed-awareness
arithmetic and comparison raise `TypeError` in Python, modelled by
`Except.error`.  Scores involve `math.log1p`, so they live in `ℝ`. -/

/-- A Python `datetime`: wall-clock time measured in days plus an optional
UTC offset (in days); `tz = none` is a naive datetime. -/
structure Dt where
  wall : ℚ
  tz : Option ℚ
deriving DecidableEq

/-- `d.replace(tzinfo=None)`: keep the wall-clock reading, drop the offset. -/
def stripTz (d : Dt) : Dt := { wall := d.wall, tz := none }

/-- The UTC reading of a datetime (wall clock minus offset, if any). -/
def Dt.utc (d : Dt) : ℚ := d.wall - d.tz.getD 0

/-- Python datetime subtraction `a - b` (result in days): defined for
naive−naive and aware−aware, a `TypeError` on mixed operands. -/
def pySub (a b : Dt) : Except String ℚ :=
  match a.tz, b.tz with
  | none, none => .ok (a.wall - b.wall)
  | some _, some _ => .ok (a.utc - b.utc)
  | _, _ => .error "TypeError: cannot subtract offset-naive and offset-aware datetimes"

/-- Python datetime comparison `a > b`: same mixed-awareness rule as `pySub`. -/
def pyGt (a b : Dt) : Except String Bool :=
  match a.tz, b.tz with
  | none, none => .ok (decide (b.wall < a.wall))
  | some _, some _ => .ok (decide (b.utc < a.utc))
  | _, _ => .error "TypeError: cannot compare offset-naive and offset-aware datetimes"

/-- `FRESH_PERIOD_DAYS` from `temporal_ranking.py`. -/
def FRESH_PERIOD_DAYS : ℤ := 180

/-- `HALF_LIFE_DAYS` from `temporal_ranking.py`. -/
def HALF_LIFE_DAYS : ℝ := 365

/-- `MIN_FRESHNESS_SCORE` from `temporal_ranking.py`. -/
noncomputable def MIN_FRESHNESS_SCORE : ℝ := 0.1

/-- `SEMANTIC_WEIGHT` from `temporal_ranking.py`. -/
noncomputable def SEMANTIC_WEIGHT : ℝ := 0.40

/-- `CONFIDENCE_WEIGHT` from `temporal_ranking.py`. -/
noncomputable def CONFIDENCE_WEIGHT : ℝ := 0.40

/-- `FRESHNESS_WEIGHT` from `temporal_ranking.py`. -/
noncomputable def FRESHNESS_WEIGHT : ℝ := 0.20

/-- The expiration test of `calculate_time_decay`: strip the timezone of an
aware `expiration_date` and evaluate `reference_time > expiration_date`
(`.ok false` when there is no expiration date). -/
def expirationCheck (expiration_date : Option Dt) (reference_time : Dt) :
    Except String Bool :=
  match expiration_date with
  | none => .ok false
  | some e0 => pyGt reference_time (if e0.tz.isSome then stripTz e0 else e0)

/-- `calculate_time_decay` from `temporal_ranking.py`.  The source strips the
timezone of an aware `verified_at` and of an aware `expiration_date`, checks
expiration, computes the age in whole days (`timedelta.days` floors), returns
`1.0` inside the fresh window and otherwise the logarithmic decay clamped at
`MIN_FRESHNESS_SCORE`.  `reference_time` is never stripped, so mixed
arithmetic against an aware reference raises. -/
noncomputable def calculate_time_decay (verified_at expiration_date : Option Dt)
    (reference_time : Dt) : Except String ℝ :=
  match verified_at with
  | none => .ok MIN_FRESHNESS_SCORE
  | some v0 =>
    let v := if v0.tz.isSome then stripTz v0 else v0
    match expirationCheck expiration_date reference_time with
    | .error msg => .error msg
    | .ok true => .ok MIN_FRESHNESS_SCORE
    | .ok false =>
      match pySub reference_time v with
      | .error msg => .error msg
      | .ok diff =>
        let age_days : ℤ := ⌊diff⌋
        if age_days ≤ FRESH_PERIOD_DAYS then .ok 1
        else
          let days_over_fresh : ℤ := age_days - FRESH_PERIOD_DAYS
          let decay_factor : ℝ :=
            1 / (1 + Real.log (1 + (days_over_fresh : ℝ) / HALF_LIFE_DAYS))
          .ok (max decay_factor MIN_FRESHNESS_SCORE)

/-- The value of `calculate_time_decay` past the expiration check, as a
function of the computed whole-day age. -/
noncomputable def freshnessOfAge (age_days : ℤ) : ℝ :=
  if age_days ≤ FRESH_PERIOD_DAYS then 1
  else
    max (1 / (1 + Real.log (1 + ((age_days - FRESH_PERIOD_DAYS : ℤ) : ℝ) / HALF_LIFE_DAYS)))
      MIN_FRESHNESS_SCORE

/-- The run reaches the age computation: either no expiration date, or the
(timezone-normalized) expiration comparison evaluates to not-expired. -/
def notExpired (expiration_date : Option Dt) (reference_time : Dt) : Prop :=
  expirationCheck expiration_date reference_time = .ok false

/-- The fields of a claim dict read by `calculate_freshness_score` and
`rank_claims`.  Temporal fields are datetimes already (the
`_convert_to_datetime` helper is the identity on datetimes and on `None`). -/
structure TClaim where
  verified_at : Option Dt
  created_at : Option Dt
  expiration_date : Option Dt
  confidence_score : Option ℝ

/-- `calculate_freshness_score` from `temporal_ranking.py`: use `verified_at`,
falling back to `created_at` when it is `None`, then delegate to
`calculate_time_decay`. -/
noncomputable def calculate_freshness_score (claim : TClaim) (reference_time : Dt) :
    Except String ℝ :=
  let verified_at :=
    match claim.verified_at with
    | some v => some v
    | none => claim.created_at
  calculate_time_decay verified_at claim.expiration_date reference_time

/-- `calculate_combined_score` from `temporal_ranking.py`: normalize the
weights when their sum differs from 1 by more than `0.001`, then take the
weighted sum.  The normalizing division raises `ZeroDivisionError` when the
weights sum to zero, modelled by `none`. -/
noncomputable def calculate_combined_score (semantic_score confidence_score freshness_score : ℝ)
    (semantic_weight : ℝ := SEMANTIC_WEIGHT)
    (confidence_weight : ℝ := CONFIDENCE_WEIGHT)
    (freshness_weight : ℝ := FRESHNESS_WEIGHT) : Option ℝ :=
  let total_weight := semantic_weight + confidence_weight + freshness_weight
  if |total_weight - 1| > 0.001 then
    if total_weight = 0 then none
    else some ((semantic_weight / total_weight) * semantic_score +
      (confidence_weight / total_weight) * confidence_score +
      (freshness_weight / total_weight) * freshness_score)
  else
    some (semantic_weight * semantic_score +
      confidence_weight * confidence_score +
      freshness_weight * freshness_score)

/-- The `ScoredClaim` dataclass from `temporal_ranking.py`. -/
structure ScoredClaim where
  claim : TClaim
  semantic_score : ℝ
  confidence_score : ℝ
  freshness_score : ℝ
  final_score : ℝ

/-- Insertion step of the stable descending sort on `final_score`: the new
element goes in front of the first list element whose key is `≤` its own, so
equal keys keep their original relative order. -/
noncomputable def insertByFinalDesc (x : ScoredClaim) : List ScoredClaim → List ScoredClaim
  | [] => [x]
  | y :: ys =>
    if y.final_score ≤ x.final_score then x :: y :: ys
    else y :: insertByFinalDesc x ys

/-- Python `list.sort(key=lambda x: x.final_score, reverse=True)` is a stable
descending sort; the output of a stable sort is uniquely determined by the key
order and the input order, so the insertion sort below is the same function. -/
noncomputable def sortByFinalDesc : List ScoredClaim → List ScoredClaim
  | [] => []
  | x :: xs => insertByFinalDesc x (sortByFinalDesc xs)

/-- The per-candidate body of the loop in `rank_claims`: read the confidence
(default `0.3`), compute freshness (exceptions propagate) and the combined
final score with the default weights (a `ZeroDivisionError` there would
propagate too). -/
noncomputable def scoreOne (claim : TClaim) (sem_score : ℝ) (reference_time : Dt) :
    Except String ScoredClaim :=
  let conf_score := claim.confidence_score.getD 0.3
  match calculate_freshness_score claim reference_time with
  | .error msg => .error msg
  | .ok fresh_score =>
    match calculate_combined_score sem_score conf_score fresh_score with
    | none => .error "ZeroDivisionError: float division by zero"
    | some final =>
      .ok { claim := claim
            semantic_score := sem_score
            confidence_score := conf_score
            freshness_score := fresh_score
            final_score := final }

/-- The loop of `rank_claims` over the zipped (claim, semantic score) pairs,
appending one scored record per pair; the first exception aborts the loop. -/
noncomputable def scoredListAux (pairs : List (TClaim × ℝ)) (reference_time : Dt) :
    Except String (List ScoredClaim) :=
  match pairs with
  | [] => .ok []
  | p :: rest =>
    match scoreOne p.1 p.2 reference_time with
    | .error msg => .error msg
    | .ok sc =>
      match scoredListAux rest reference_time with
      | .error msg => .error msg
      | .ok tail => .ok (sc :: tail)

/-- The unsorted scored list built by the loop of `rank_claims`. -/
noncomputable def scoredList (claims : List TClaim) (semantic_scores : List ℝ)
    (reference_time : Dt) : Except String (List ScoredClaim) :=
  scoredListAux (claims.zip semantic_scores) reference_time

/-- `rank_claims` from `temporal_ranking.py`: a `ValueError` on length
mismatch, otherwise score every candidate and sort by `final_score`
descending (stably). -/
noncomputable def rank_claims (claims : List TClaim) (semantic_scores : List ℝ)
    (reference_time : Dt) : Except String (List ScoredClaim) :=
  if claims.length ≠ semantic_scores.length then
    .error "claims and semantic_scores must have same length"
  else
    match scoredList claims semantic_scores reference_time with
    | .error msg => .error msg
    | .ok scored => .ok (sortByFinalDesc scored)

/-! ## Helper lemmas on the ReBAC tag combination -/

/-- Membership in the union fold over relationship rows. -/
lemma mem_foldl_union (rels : List String) (s : Finset String) (x : String) :
    x ∈ rels.foldl
        (fun acc rel => acc ∪ (get_allowed_tags_for_relationship rel).toFinset) s ↔
      x ∈ s ∨ ∃ rel ∈ rels, x ∈ get_allowed_tags_for_relationship rel := by
  induction rels generalizing s with
  | nil => simp
  | cons r rs ih =>
    rw [List.foldl_cons, ih]
    simp only [Finset.mem_union, List.mem_toFinset, List.mem_cons]
    constructor
    · rintro ((hs | hr) | ⟨rel, hrel, hx⟩)
      · exact Or.inl hs
      · exact Or.inr ⟨r, Or.inl rfl, hr⟩
      · exact Or.inr ⟨rel, Or.inr hrel, hx⟩
    · rintro (hs | ⟨rel, (rfl | hrel), hx⟩)
      · exact Or.inl (Or.inl hs)
      · exact Or.inl (Or.inr hx)
      · exact Or.inr ⟨rel, hrel, hx⟩

/-- Characterization of `combine_allowed_tags`. -/
lemma mem_combine_allowed_tags (rels : List String) (x : String) :
    x ∈ combine_allowed_tags rels ↔
      ∃ rel ∈ rels, x ∈ get_allowed_tags_for_relationship rel := by
  rw [combine_allowed_tags, mem_foldl_union]
  simp

/-- The two copies of the combination function in the source are the same
function. -/
lemma AccessConfig_combine_tags_eq :
    AccessConfig_combine_tags = combine_allowed_tags := rfl

/-- Every row of the ReBAC matrix (including the default row used for unknown
relationship strings) contains the `public` tag. -/
lemma public_mem_get_allowed_tags (rel : String) :
    "public" ∈ get_allowed_tags_for_relationship rel := by
  unfold get_allowed_tags_for_relationship
  split_ifs <;> decide

/-- Every access scope produced by `determine_access_scope` allows `public`. -/
lemma public_mem_determine_access_scope (viewer_id target_id : String)
    (queryResult : Except String (List String)) :
    "public" ∈ (determine_access_scope viewer_id target_id queryResult).allowed_tags := by
  unfold determine_access_scope
  split
  · show "public" ∈ rebacRowSelf.toFinset
    decide
  · set rels0 := query_relationships queryResult with hrels0
    by_cases h0 : rels0 = []
    · simp only [h0, if_pos rfl]
      show "public" ∈ combine_allowed_tags ["STRANGER"]
      decide
    · simp only [if_neg h0]
      rcases List.exists_mem_of_ne_nil rels0 h0 with ⟨r, hr⟩
      exact (mem_combine_allowed_tags _ _).mpr ⟨r, hr, public_mem_get_allowed_tags r⟩

/-! ## Claim C5 -/

/-- Claim C5: the unlocked-tag computation is monotone — for relationship
lists `R1 ⊆ R2` (as sets), `combine_allowed_tags R1 ⊆ combine_allowed_tags R2`,
and likewise for the duplicate `AccessConfig.combine_tags`; adding a
relationship can only grow the unlocked tag set. -/
theorem combine_allowed_tags_monotone (R1 R2 : List String)
    (hsub : ∀ rel, rel ∈ R1 → rel ∈ R2) :
    combine_allowed_tags R1 ⊆ combine_allowed_tags R2 ∧
    AccessConfig_combine_tags R1 ⊆ AccessConfig_combine_tags R2 := by
  have key : combine_allowed_tags R1 ⊆ combine_allowed_tags R2 := by
    intro x hx
    rcases (mem_combine_allowed_tags _ _).mp hx with ⟨rel, hrel, hxr⟩
    exact (mem_combine_allowed_tags _ _).mpr ⟨rel, hsub rel hrel, hxr⟩
  exact ⟨key, by rw [AccessConfig_combine_tags_eq]; exact key⟩

/-- Witness for C5 at a concrete pair of relationship lists. -/
theorem combine_allowed_tags_monotone_witness :
    combine_allowed_tags ["FRIEND"] ⊆ combine_allowed_tags ["FRIEND", "COLLEAGUE"] ∧
    AccessConfig_combine_tags ["FRIEND"] ⊆
      AccessConfig_combine_tags ["FRIEND", "COLLEAGUE"] :=
  combine_allowed_tags_monotone ["FRIEND"] ["FRIEND", "COLLEAGUE"]
    (by intro rel hrel; fin_cases hrel; decide)

/-! ## Claim C10 -/

/-- Claim C10: an unrecognized relationship string falls back to the
`STRANGER` row `["public"]` in `get_allowed_tags_for_relationship` (a total
function — the dict `get` never raises), and consequently a list made of
unrecognized relationship strings unlocks at most the `public` tag in
`combine_allowed_tags`. -/
theorem unknown_relationship_only_public :
    (∀ rel : String,
      rel ∉ (["SELF", "STRANGER", "FRIEND", "COLLEAGUE", "RECRUITING"] : List String) →
      get_allowed_tags_for_relationship rel = rebacRowStranger) ∧
    (∀ rels : List String,
      (∀ rel ∈ rels,
        rel ∉ (["SELF", "STRANGER", "FRIEND", "COLLEAGUE", "RECRUITING"] : List String)) →
      combine_allowed_tags rels ⊆ ({"public"} : Finset String)) := by
  have part1 : ∀ rel : String,
      rel ∉ (["SELF", "STRANGER", "FRIEND", "COLLEAGUE", "RECRUITING"] : List String) →
      get_allowed_tags_for_relationship rel = rebacRowStranger := by
    intro rel h
    simp only [List.mem_cons, List.not_mem_nil, or_false, not_or] at h
    obtain ⟨h1, h2, h3, h4, h5⟩ := h
    simp [get_allowed_tags_for_relationship, h1, h2, h3, h4, h5]
  refine ⟨part1, ?_⟩
  intro rels hrels x hx
  rcases (mem_combine_allowed_tags _ _).mp hx with ⟨rel, hrel, hxr⟩
  rw [part1 rel (hrels rel hrel)] at hxr
  simp only [rebacRowStranger, List.mem_singleton] at hxr
  simp [hxr]

/-- Witness for C10 at a concrete unknown relationship string and a concrete
list of unknown strings. -/
theorem unknown_relationship_only_public_witness :
    get_allowed_tags_for_relationship "BESTIE" = rebacRowStranger ∧
    combine_allowed_tags ["BESTIE", "rival"] ⊆ ({"public"} : Finset String) :=
  ⟨unknown_relationship_only_public.1 "BESTIE" (by decide),
   unknown_relationship_only_public.2 ["BESTIE", "rival"]
     (by intro rel hrel; fin_cases hrel <;> decide)⟩

/-! ## Claim C4 -/

/-- Claim C4: for a viewer distinct from the target, whenever the graph query
returns no edges or raises, `determine_access_scope` returns relationships
exactly `["STRANGER"]` and allowed tags exactly `{public}` — fail-closed. -/
theorem determine_access_scope_fail_closed (viewer_id target_id : String)
    (queryResult : Except String (List String))
    (hne : viewer_id ≠ target_id)
    (hfail : queryResult = .ok [] ∨ ∃ msg, queryResult = .error msg) :
    (determine_access_scope viewer_id target_id queryResult).relationships =
      ["STRANGER"] ∧
    (determine_access_scope viewer_id target_id queryResult).allowed_tags =
      ({"public"} : Finset String) := by
  have hq : query_relationships queryResult = [] := by
    rcases hfail with h | ⟨msg, h⟩ <;> (subst h; rfl)
  rw [determine_access_scope]
  rw [if_neg hne]
  simp only [hq]
  exact ⟨rfl, by decide⟩

/-- Witness for C4: a stranger pair with an empty graph result. -/
theorem determine_access_scope_fail_closed_witness :
    (determine_access_scope "alice" "bob" (.ok [])).relationships = ["STRANGER"] ∧
    (determine_access_scope "alice" "bob" (.ok [])).allowed_tags =
      ({"public"} : Finset String) :=
  determine_access_scope_fail_closed "alice" "bob" (.ok []) (by decide) (Or.inl rfl)

/-! ## Claim C2 -/

/-- Claim C2: a claim with no `access_tags` whose legacy `access_level` is
`private` is kept by `filter_claims_by_access` for every viewer and target —
`convert_access_level_to_tags` maps `private` to the empty tag list and
`AccessScope.can_access` treats an empty tag list as implicit public, which
every scope produced by `determine_access_scope` allows. -/
theorem legacy_private_claims_visible (viewer_id target_id : String)
    (queryResult : Except String (List String)) (claims : List RClaim) (c : RClaim)
    (hc : c ∈ claims) (htags : c.access_tags = [])
    (hlevel : c.access_level = some "private") :
    c ∈ filter_claims_by_access claims
        (determine_access_scope viewer_id target_id queryResult) := by
  have heff : effective_access_tags c = [] := by
    simp [effective_access_tags, htags, hlevel, convert_access_level_to_tags]
  refine List.mem_filter.mpr ⟨hc, ?_⟩
  simp only [AccessScope.can_access, heff, if_pos rfl]
  exact decide_eq_true (public_mem_determine_access_scope viewer_id target_id queryResult)

/-- Witness for C2: a stranger viewer still sees a legacy-private claim. -/
theorem legacy_private_claims_visible_witness :
    (⟨[], some "private"⟩ : RClaim) ∈
      filter_claims_by_access [⟨[], some "private"⟩]
        (determine_access_scope "stranger" "target" (.ok [])) :=
  legacy_private_claims_visible "stranger" "target" (.ok [])
    [⟨[], some "private"⟩] ⟨[], some "private"⟩ (by decide) rfl rfl

/-! ## Helper lemmas on the gatekeeper loop -/

/-- Membership in the gatekeeper output in terms of the enumerate loop. -/
lemma mem_gatekeeper_filter (metadata : List Meta)
    (target_user_id viewer_id viewer_role : String) (min_confidence : Option ℚ)
    (i : Nat) :
    i ∈ gatekeeper_filter metadata target_user_id viewer_id viewer_role
        min_confidence ↔
      ∃ m, (i, m) ∈ metadata.enum ∧
        gatekeeper_keep m target_user_id viewer_id viewer_role
          (min_confidence.getD MIN_CONFIDENCE_FOR_RAG) = true := by
  simp only [gatekeeper_filter, List.mem_map, List.mem_filter, Prod.exists]
  constructor
  · rintro ⟨a, b, ⟨hmem, hkeep⟩, rfl⟩
    exact ⟨b, hmem, hkeep⟩
  · rintro ⟨m, hmem, hkeep⟩
    exact ⟨i, m, ⟨hmem, hkeep⟩, rfl⟩

/-- The RAG-service variant is the gatekeeper with the default floor. -/
lemma RAGService_filter_by_access_eq (metadata : List Meta)
    (target_user_id viewer_id viewer_role : String) :
    RAGService_filter_by_access metadata target_user_id viewer_id viewer_role =
      gatekeeper_filter metadata target_user_id viewer_id viewer_role none := rfl

/-- A record kept by the gatekeeper loop passes the scope check: its
`user_id`-or-`source` owner equals the requested target. -/
lemma gatekeeper_keep_owner {m : Meta} {target_user_id viewer_id viewer_role : String}
    {min_confidence : ℚ}
    (h : gatekeeper_keep m target_user_id viewer_id viewer_role min_confidence = true) :
    pyOrStr m.user_id m.source = some target_user_id := by
  by_contra hne
  simp [gatekeeper_keep, hne] at h

/-- A record kept by the gatekeeper loop passes the confidence floor. -/
lemma gatekeeper_keep_confidence {m : Meta}
    {target_user_id viewer_id viewer_role : String} {min_confidence : ℚ}
    (h : gatekeeper_keep m target_user_id viewer_id viewer_role min_confidence = true) :
    ¬ m.confidence_score.getD base_self_declared < min_confidence := by
  intro hlt
  simp [gatekeeper_keep, hlt] at h

/-! ## Claim C3 -/

/-- Claim C3: every index returned by `gatekeeper_filter` (and by
`RAGService._filter_by_access`) refers to a record whose owning-user
identifier — the `user_id` field, falling through to the legacy `source`
field — equals the requested target user id; no claim owned by a different
user is returned, for any viewer, viewer role, or confidence floor. -/
theorem gatekeeper_no_cross_target_leakage (metadata : List Meta)
    (target_user_id viewer_id viewer_role : String) (min_confidence : Option ℚ)
    (i : Nat) :
    (i ∈ gatekeeper_filter metadata target_user_id viewer_id viewer_role
        min_confidence →
      ∃ m, metadata[i]? = some m ∧ pyOrStr m.user_id m.source = some target_user_id) ∧
    (i ∈ RAGService_filter_by_access metadata target_user_id viewer_id viewer_role →
      ∃ m, metadata[i]? = some m ∧
        pyOrStr m.user_id m.source = some target_user_id) := by
  have key : ∀ mc : Option ℚ,
      i ∈ gatekeeper_filter metadata target_user_id viewer_id viewer_role mc →
      ∃ m, metadata[i]? = some m ∧
        pyOrStr m.user_id m.source = some target_user_id := by
    intro mc hmem
    rcases (mem_gatekeeper_filter _ _ _ _ _ _).mp hmem with ⟨m, henum, hkeep⟩
    exact ⟨m, List.mk_mem_enum_iff_getElem?.mp henum, gatekeeper_keep_owner hkeep⟩
  exact ⟨key min_confidence, by rw [RAGService_filter_by_access_eq]; exact key none⟩

/-- Witness for C3 at a concrete metadata list. -/
theorem gatekeeper_no_cross_target_leakage_witness :
    ∃ m, ([⟨some "alice", none, none, none, none, none⟩] : List Meta)[0]? = some m ∧
      pyOrStr m.user_id m.source = some "alice" :=
  (gatekeeper_no_cross_target_leakage
    [⟨some "alice", none, none, none, none, none⟩] "alice" "alice" "Default"
    none 0).1
    (by
      have h : ¬("alice" : String) = "" ∨ (none : Option String) = some "alice" :=
        Or.inl (by decide)
      norm_num [gatekeeper_filter, gatekeeper_keep, pyOrStr, base_self_declared,
        MIN_CONFIDENCE_FOR_RAG, List.enum, List.enumFrom, List.filter_cons, h])

/-! ## Claim C1 -/

/-- A revoked claim whose stored confidence score clears the floor, carried by
a public record of the target. -/
def revokedMeta : Meta :=
  { user_id := some "alice"
    source := none
    access_level := some "public"
    status := some "revoked"
    verified := none
    confidence_score := some (9/10) }

/-- Counterexample to C1 as stated: a claim with `status = "revoked"` and
stored confidence `0.9` on a public record IS returned by `gatekeeper_filter`
and by `RAGService._filter_by_access` — neither function inspects the revoked
status, only the confidence floor. -/
theorem gatekeeper_returns_revoked_claim :
    revokedMeta.status = some "revoked" ∧
    gatekeeper_filter [revokedMeta] "alice" "bob" "Default" none = [0] ∧
    RAGService_filter_by_access [revokedMeta] "alice" "bob" "Default" = [0] := by
  have h : ¬("alice" : String) = "" ∨ (none : Option String) = some "alice" :=
    Or.inl (by decide)
  refine ⟨rfl, ?_, ?_⟩ <;>
    norm_num [gatekeeper_filter, RAGService_filter_by_access, gatekeeper_keep,
      pyOrStr, revokedMeta, base_self_declared, MIN_CONFIDENCE_FOR_RAG,
      List.enum, List.enumFrom, List.filter_cons, h]

/-- Claim C1 (amended): the gatekeeper filters revoked claims only through the
confidence floor — a claim with `status = "revoked"` is never returned
provided its stored confidence score (default `0.3` when absent) is below the
effective minimum confidence, as is the case for claims revoked through
`ClaimRepository.revoke_claim`, which stores confidence `0.0`. -/
theorem revoked_claim_below_floor_never_returned (metadata : List Meta)
    (target_user_id viewer_id viewer_role : String) (i : Nat) (m : Meta)
    (hget : metadata[i]? = some m) (hrev : m.status = some "revoked") :
    (∀ min_confidence : Option ℚ,
      m.confidence_score.getD base_self_declared <
        min_confidence.getD MIN_CONFIDENCE_FOR_RAG →
      i ∉ gatekeeper_filter metadata target_user_id viewer_id viewer_role
        min_confidence) ∧
    (m.confidence_score.getD base_self_declared < MIN_CONFIDENCE_FOR_RAG →
      i ∉ RAGService_filter_by_access metadata target_user_id viewer_id
        viewer_role) := by
  have key : ∀ mc : Option ℚ,
      m.confidence_score.getD base_self_declared < mc.getD MIN_CONFIDENCE_FOR_RAG →
      i ∉ gatekeeper_filter metadata target_user_id viewer_id viewer_role mc := by
    intro mc hlt hmem
    rcases (mem_gatekeeper_filter _ _ _ _ _ _).mp hmem with ⟨m2, henum, hkeep⟩
    have hm2 : m2 = m := by
      have := List.mk_mem_enum_iff_getElem?.mp henum
      rw [hget] at this
      exact (Option.some_inj.mp this).symm
    subst hm2
    exact gatekeeper_keep_confidence hkeep hlt
  refine ⟨key, ?_⟩
  rw [RAGService_filter_by_access_eq]
  exact key none

/-- A record revoked through `revoke_claim`: status revoked, confidence `0.0`. -/
def zeroConfRevokedMeta : Meta :=
  { user_id := some "alice"
    source := none
    access_level := some "public"
    status := some "revoked"
    verified := none
    confidence_score := some 0 }

/-- Witness for amended C1: a claim revoked with confidence `0.0` is excluded
for every viewer. -/
theorem revoked_claim_below_floor_never_returned_witness :
    (0 : Nat) ∉ gatekeeper_filter [zeroConfRevokedMeta] "alice" "bob" "Default"
        none ∧
    (0 : Nat) ∉ RAGService_filter_by_access [zeroConfRevokedMeta] "alice" "bob"
        "Default" :=
  ⟨(revoked_claim_below_floor_never_returned [zeroConfRevokedMeta]
      "alice" "bob" "Default" 0 zeroConfRevokedMeta rfl rfl).1 none
      (by norm_num [zeroConfRevokedMeta, base_self_declared, MIN_CONFIDENCE_FOR_RAG]),
   (revoked_claim_below_floor_never_returned [zeroConfRevokedMeta]
      "alice" "bob" "Default" 0 zeroConfRevokedMeta rfl rfl).2
      (by norm_num [zeroConfRevokedMeta, base_self_declared, MIN_CONFIDENCE_FOR_RAG])⟩

/-! ## Helper lemmas on the freshness model -/

/-- The timezone-normalization step always yields a naive datetime. -/
lemma stripIf_tz (d : Dt) : (if d.tz.isSome then stripTz d else d).tz = none := by
  by_cases h : d.tz.isSome
  · simp [h, stripTz]
  · simp only [h, if_false]
    exact Option.not_isSome_iff_eq_none.mp h

/-- The timezone-normalization step never changes the wall-clock reading. -/
lemma stripIf_wall (d : Dt) : (if d.tz.isSome then stripTz d else d).wall = d.wall := by
  by_cases h : d.tz.isSome <;> simp [h, stripTz]

/-- Against a naive reference time the expiration check never raises. -/
lemma expirationCheck_naive (e : Option Dt) (ref : Dt) (href : ref.tz = none) :
    ∃ b, expirationCheck e ref = .ok b := by
  cases e with
  | none => exact ⟨false, rfl⟩
  | some e0 =>
    refine ⟨decide ((if e0.tz.isSome then stripTz e0 else e0).wall < ref.wall), ?_⟩
    simp only [expirationCheck, pyGt, href, stripIf_tz]

/-- Reduction of `calculate_time_decay` when the reference time is naive and
the claim is not expired: the result is `freshnessOfAge` of the floored
wall-clock difference (the timezone of `verified_at` is silently dropped). -/
lemma calculate_time_decay_eq_freshnessOfAge (v0 : Dt) (e : Option Dt) (ref : Dt)
    (href : ref.tz = none) (hne : notExpired e ref) :
    calculate_time_decay (some v0) e ref =
      .ok (freshnessOfAge ⌊ref.wall - v0.wall⌋) := by
  have hsub : pySub ref (if v0.tz.isSome then stripTz v0 else v0) =
      .ok (ref.wall - v0.wall) := by
    simp only [pySub, href, stripIf_tz, stripIf_wall]
  have hne2 : expirationCheck e ref = .ok false := hne
  simp only [calculate_time_decay, hne2, hsub, freshnessOfAge]
  split <;> rfl

/-- `MIN_FRESHNESS_SCORE` is strictly positive. -/
lemma MIN_FRESHNESS_SCORE_pos : (0 : ℝ) < MIN_FRESHNESS_SCORE := by
  norm_num [MIN_FRESHNESS_SCORE]

/-- `MIN_FRESHNESS_SCORE` is at most one. -/
lemma MIN_FRESHNESS_SCORE_le_one : MIN_FRESHNESS_SCORE ≤ 1 := by
  norm_num [MIN_FRESHNESS_SCORE]

/-- The decay argument is non-negative past the fresh window. -/
lemma decay_arg_nonneg {a : ℤ} (ha : ¬ a ≤ FRESH_PERIOD_DAYS) :
    (0 : ℝ) ≤ ((a - FRESH_PERIOD_DAYS : ℤ) : ℝ) / HALF_LIFE_DAYS := by
  have hz : (0 : ℝ) ≤ ((a - FRESH_PERIOD_DAYS : ℤ) : ℝ) := by
    exact_mod_cast (by omega : (0 : ℤ) ≤ a - FRESH_PERIOD_DAYS)
  exact div_nonneg hz (by norm_num [HALF_LIFE_DAYS])

/-- The decay denominator is at least one past the fresh window. -/
lemma one_le_decay_denom {a : ℤ} (ha : ¬ a ≤ FRESH_PERIOD_DAYS) :
    1 ≤ 1 + Real.log (1 + ((a - FRESH_PERIOD_DAYS : ℤ) : ℝ) / HALF_LIFE_DAYS) := by
  have hx := decay_arg_nonneg ha
  have hlog : 0 ≤ Real.log (1 + ((a - FRESH_PERIOD_DAYS : ℤ) : ℝ) / HALF_LIFE_DAYS) :=
    Real.log_nonneg (by linarith)
  linarith

/-- The decay factor never exceeds one. -/
lemma decay_factor_le_one {a : ℤ} (ha : ¬ a ≤ FRESH_PERIOD_DAYS) :
    1 / (1 + Real.log (1 + ((a - FRESH_PERIOD_DAYS : ℤ) : ℝ) / HALF_LIFE_DAYS)) ≤ 1 := by
  have h1 := one_le_decay_denom ha
  rw [div_le_one (by linarith)]
  exact h1

/-- `freshnessOfAge` stays within `[MIN_FRESHNESS_SCORE, 1]`. -/
lemma freshnessOfAge_bounds (a : ℤ) :
    MIN_FRESHNESS_SCORE ≤ freshnessOfAge a ∧ freshnessOfAge a ≤ 1 := by
  unfold freshnessOfAge
  split
  · exact ⟨MIN_FRESHNESS_SCORE_le_one, le_refl 1⟩
  · rename_i ha
    exact ⟨le_max_right _ _,
      max_le (decay_factor_le_one ha) MIN_FRESHNESS_SCORE_le_one⟩

/-- `freshnessOfAge` is non-increasing in the age. -/
lemma freshnessOfAge_antitone {a b : ℤ} (hab : a ≤ b) :
    freshnessOfAge b ≤ freshnessOfAge a := by
  by_cases hb : b ≤ FRESH_PERIOD_DAYS
  · have ha : a ≤ FRESH_PERIOD_DAYS := le_trans hab hb
    unfold freshnessOfAge
    rw [if_pos ha, if_pos hb]
  · by_cases ha : a ≤ FRESH_PERIOD_DAYS
    · calc freshnessOfAge b ≤ 1 := (freshnessOfAge_bounds b).2
        _ = freshnessOfAge a := by rw [freshnessOfAge, if_pos ha]
    · unfold freshnessOfAge
      rw [if_neg ha, if_neg hb]
      refine max_le_max ?_ (le_refl _)
      have hcast : ((a - FRESH_PERIOD_DAYS : ℤ) : ℝ) ≤ ((b - FRESH_PERIOD_DAYS : ℤ) : ℝ) := by
        exact_mod_cast (by omega : a - FRESH_PERIOD_DAYS ≤ b - FRESH_PERIOD_DAYS)
      have hdiv : ((a - FRESH_PERIOD_DAYS : ℤ) : ℝ) / HALF_LIFE_DAYS ≤
          ((b - FRESH_PERIOD_DAYS : ℤ) : ℝ) / HALF_LIFE_DAYS :=
        (div_le_div_iff_of_pos_right (by norm_num [HALF_LIFE_DAYS])).mpr hcast
      have hxa := decay_arg_nonneg ha
      have hlog :
          Real.log (1 + ((a - FRESH_PERIOD_DAYS : ℤ) : ℝ) / HALF_LIFE_DAYS) ≤
          Real.log (1 + ((b - FRESH_PERIOD_DAYS : ℤ) : ℝ) / HALF_LIFE_DAYS) :=
        Real.log_le_log (by linarith) (by linarith)
      have hda := one_le_decay_denom ha
      exact one_div_le_one_div_of_le (by linarith) (by linarith)

/-- Every `.ok` result of `calculate_time_decay` is the floor score, one, or a
clamped decay value. -/
lemma calculate_time_decay_ok_cases (va e : Option Dt) (ref : Dt) (r : ℝ)
    (h : calculate_time_decay va e ref = .ok r) :
    r = MIN_FRESHNESS_SCORE ∨ r = 1 ∨
      ∃ a : ℤ, ¬ a ≤ FRESH_PERIOD_DAYS ∧ r = freshnessOfAge a := by
  cases va with
  | none =>
    simp only [calculate_time_decay, Except.ok.injEq] at h
    exact Or.inl h.symm
  | some v0 =>
    simp only [calculate_time_decay] at h
    rcases hec : expirationCheck e ref with msg | b
    · rw [hec] at h
      simp at h
    · rw [hec] at h
      cases b with
      | true =>
        simp only [Except.ok.injEq] at h
        exact Or.inl h.symm
      | false =>
        rcases hps : pySub ref (if v0.tz.isSome then stripTz v0 else v0) with msg | diff
        · rw [hps] at h
          simp at h
        · rw [hps] at h
          simp only [] at h
          split at h
          · rename_i hage
            simp only [Except.ok.injEq] at h
            exact Or.inr (Or.inl h.symm)
          · rename_i hage
            simp only [Except.ok.injEq] at h
            refine Or.inr (Or.inr ⟨⌊diff⌋, hage, ?_⟩)
            rw [freshnessOfAge, if_neg hage]
            exact h.symm

/-! ## Claim C6 -/

/-- Claim C6: every `.ok` value of `calculate_time_decay` lies in
`[MIN_FRESHNESS_SCORE, 1]`; with a computed age of exactly
`FRESH_PERIOD_DAYS` (and the run reaching the age computation) the result is
exactly `1`; and past that the result is non-increasing as the age grows. -/
theorem calculate_time_decay_bounds_fresh_antitone :
    (∀ (va e : Option Dt) (ref : Dt) (r : ℝ),
      calculate_time_decay va e ref = .ok r →
      MIN_FRESHNESS_SCORE ≤ r ∧ r ≤ 1) ∧
    (∀ (v : Dt) (e : Option Dt) (ref : Dt),
      ref.tz = none → notExpired e ref →
      ⌊ref.wall - v.wall⌋ = FRESH_PERIOD_DAYS →
      calculate_time_decay (some v) e ref = .ok 1) ∧
    (∀ (v1 v2 : Dt) (e : Option Dt) (ref : Dt) (r1 r2 : ℝ),
      ref.tz = none → notExpired e ref →
      FRESH_PERIOD_DAYS ≤ ⌊ref.wall - v1.wall⌋ →
      ⌊ref.wall - v1.wall⌋ ≤ ⌊ref.wall - v2.wall⌋ →
      calculate_time_decay (some v1) e ref = .ok r1 →
      calculate_time_decay (some v2) e ref = .ok r2 →
      r2 ≤ r1) := by
  refine ⟨?_, ?_, ?_⟩
  · intro va e ref r h
    rcases calculate_time_decay_ok_cases va e ref r h with hr | hr | ⟨a, ha, hr⟩
    · subst hr
      exact ⟨le_refl _, MIN_FRESHNESS_SCORE_le_one⟩
    · subst hr
      exact ⟨MIN_FRESHNESS_SCORE_le_one, le_refl 1⟩
    · subst hr
      exact freshnessOfAge_bounds a
  · intro v e ref href hne hage
    rw [calculate_time_decay_eq_freshnessOfAge v e ref href hne, hage,
      freshnessOfAge, if_pos (le_refl _)]
  · intro v1 v2 e ref r1 r2 href hne hfresh hage h1 h2
    rw [calculate_time_decay_eq_freshnessOfAge v1 e ref href hne,
      Except.ok.injEq] at h1
    rw [calculate_time_decay_eq_freshnessOfAge v2 e ref href hne,
      Except.ok.injEq] at h2
    subst h1
    subst h2
    exact freshnessOfAge_antitone hage

/-- Witness for C6: the all-`none` input hits the floor and stays in bounds,
a 180-day-old naive claim scores exactly `1`, and two equal ages compare. -/
theorem calculate_time_decay_bounds_fresh_antitone_witness :
    (MIN_FRESHNESS_SCORE ≤ MIN_FRESHNESS_SCORE ∧ MIN_FRESHNESS_SCORE ≤ 1) ∧
    calculate_time_decay (some ⟨0, none⟩) none ⟨180, none⟩ = .ok 1 ∧
    (1 : ℝ) ≤ 1 :=
  ⟨calculate_time_decay_bounds_fresh_antitone.1 none none ⟨0, none⟩
      MIN_FRESHNESS_SCORE rfl,
   calculate_time_decay_bounds_fresh_antitone.2.1 ⟨0, none⟩ none ⟨180, none⟩ rfl
      rfl (by norm_num [FRESH_PERIOD_DAYS]),
   calculate_time_decay_bounds_fresh_antitone.2.2 ⟨0, none⟩ ⟨0, none⟩ none
      ⟨180, none⟩ 1 1 rfl rfl
      (by norm_num [FRESH_PERIOD_DAYS])
      (le_refl _)
      (calculate_time_decay_bounds_fresh_antitone.2.1 ⟨0, none⟩ none ⟨180, none⟩
        rfl rfl (by norm_num [FRESH_PERIOD_DAYS]))
      (calculate_time_decay_bounds_fresh_antitone.2.1 ⟨0, none⟩ none ⟨180, none⟩
        rfl rfl (by norm_num [FRESH_PERIOD_DAYS]))⟩

/-! ## Claim C9 -/

/-- Counterexample to C9 as stated: a timezone-aware `verified_at` mixed with
a naive reference time does NOT raise — the timezone is silently dropped and a
normal freshness result (`1.0`, the full fresh-window score) is returned.  No
`MalformedTimestamp` error type exists in the source. -/
theorem aware_verified_at_silently_coerced :
    calculate_time_decay (some ⟨0, some 0⟩) none ⟨10, none⟩ = .ok 1 := by
  rw [calculate_time_decay_eq_freshnessOfAge ⟨0, some 0⟩ none ⟨10, none⟩ rfl rfl]
  norm_num [freshnessOfAge, FRESH_PERIOD_DAYS]

/-- Claim C9 (amended): mixed timezone-aware/naive timestamps are not a
defined error — an aware `verified_at` or `expiration_date` has its timezone
silently dropped and a normal freshness result is returned whenever the
reference time is naive; an error (Python `TypeError`, not a
`MalformedTimestamp`) occurs exactly when the reference time itself is aware
while `verified_at` is non-null. -/
theorem timezone_mixing_behavior :
    (∀ (v : Dt) (e : Option Dt) (ref : Dt), ref.tz = none →
      ∃ r, calculate_time_decay (some v) e ref = .ok r) ∧
    (∀ (v : Dt) (e : Option Dt) (ref : Dt), ref.tz ≠ none →
      ∃ msg, calculate_time_decay (some v) e ref = .error msg) := by
  constructor
  · intro v e ref href
    rcases expirationCheck_naive e ref href with ⟨b, hb⟩
    cases b with
    | false => exact ⟨_, calculate_time_decay_eq_freshnessOfAge v e ref href hb⟩
    | true =>
      refine ⟨MIN_FRESHNESS_SCORE, ?_⟩
      simp only [calculate_time_decay, hb]
  · intro v e ref href
    rcases Option.ne_none_iff_exists.mp href with ⟨o, ho⟩
    cases e with
    | none =>
      have hsub : pySub ref (if v.tz.isSome then stripTz v else v) =
          .error "TypeError: cannot subtract offset-naive and offset-aware datetimes" := by
        simp only [pySub, ← ho, stripIf_tz]
      refine ⟨"TypeError: cannot subtract offset-naive and offset-aware datetimes", ?_⟩
      simp only [calculate_time_decay, expirationCheck, hsub]
    | some e0 =>
      have hgt : pyGt ref (if e0.tz.isSome then stripTz e0 else e0) =
          .error "TypeError: cannot compare offset-naive and offset-aware datetimes" := by
        simp only [pyGt, ← ho, stripIf_tz]
      refine ⟨"TypeError: cannot compare offset-naive and offset-aware datetimes", ?_⟩
      simp only [calculate_time_decay, expirationCheck, hgt]

/-- Witness for amended C9: an aware `verified_at` with a naive reference
yields a result; an aware reference raises. -/
theorem timezone_mixing_behavior_witness :
    (∃ r, calculate_time_decay (some ⟨0, some 0⟩) none ⟨10, none⟩ = .ok r) ∧
    (∃ msg, calculate_time_decay (some ⟨0, none⟩) none ⟨10, some 0⟩ =
      .error msg) :=
  ⟨timezone_mixing_behavior.1 ⟨0, some 0⟩ none ⟨10, none⟩ rfl,
   timezone_mixing_behavior.2 ⟨0, none⟩ none ⟨10, some 0⟩ (by simp)⟩

/-! ## Claim C8 -/

/-- Counterexample to C8 as stated: with a negative semantic weight the
function does NOT raise any configuration error — the weights (whose sum
`0.2` is off by more than the `0.001` tolerance) are normalized by their sum
and a score is computed.  No `InvalidConfiguration` error type exists in the
source. -/
theorem negative_weights_compute_score :
    calculate_combined_score 0.8 0.9 1 (-0.4) 0.4 0.2 = some 1.2 := by
  unfold calculate_combined_score
  rw [if_pos (by norm_num [abs_of_nonneg, abs_of_nonpos]), if_neg (by norm_num)]
  norm_num

/-- Claim C8 (amended): `calculate_combined_score` never raises a dedicated
configuration error: the only failure is the `ZeroDivisionError` hit exactly
when the three weights sum to zero (all-zero or cancelling weights); whenever
the sum is non-zero and differs from `1` by more than the `0.001` tolerance —
negative weights included — the weights are normalized proportionally by
their sum before use. -/
theorem calculate_combined_score_weight_handling :
    (∀ s c f ws wc wf : ℝ,
      calculate_combined_score s c f ws wc wf = none ↔ ws + wc + wf = 0) ∧
    (∀ s c f ws wc wf : ℝ, ws + wc + wf ≠ 0 → |ws + wc + wf - 1| > 0.001 →
      calculate_combined_score s c f ws wc wf =
        some ((ws / (ws + wc + wf)) * s + (wc / (ws + wc + wf)) * c +
          (wf / (ws + wc + wf)) * f)) := by
  constructor
  · intro s c f ws wc wf
    unfold calculate_combined_score
    constructor
    · intro h
      by_cases htol : |ws + wc + wf - 1| > 0.001
      · rw [if_pos htol] at h
        by_cases hz : ws + wc + wf = 0
        · exact hz
        · rw [if_neg hz] at h
          exact absurd h (by simp)
      · rw [if_neg htol] at h
        exact absurd h (by simp)
    · intro hz
      rw [if_pos (by rw [hz]; norm_num), if_pos hz]
  · intro s c f ws wc wf hz htol
    unfold calculate_combined_score
    rw [if_pos htol, if_neg hz]

/-- Witness for amended C8: all-zero weights yield the division error;
weights `(0.2, 0.2, 0.2)` get normalized to `(1/3, 1/3, 1/3)`. -/
theorem calculate_combined_score_weight_handling_witness :
    (calculate_combined_score 1 1 1 0 0 0 = none ↔ (0 : ℝ) + 0 + 0 = 0) ∧
    calculate_combined_score 1 0 0 0.2 0.2 0.2 =
      some ((0.2 / (0.2 + 0.2 + 0.2)) * 1 + (0.2 / (0.2 + 0.2 + 0.2)) * 0 +
        (0.2 / (0.2 + 0.2 + 0.2)) * 0) :=
  ⟨calculate_combined_score_weight_handling.1 1 1 1 0 0 0,
   calculate_combined_score_weight_handling.2 1 0 0 0.2 0.2 0.2 (by norm_num)
     (by norm_num [abs_of_nonneg, abs_of_nonpos])⟩

/-! ## Helper lemmas on the ranking sort -/

/-- Inserting is a permutation-preserving cons. -/
lemma insertByFinalDesc_perm (x : ScoredClaim) (l : List ScoredClaim) :
    (insertByFinalDesc x l).Perm (x :: l) := by
  induction l with
  | nil => simp [insertByFinalDesc]
  | cons y ys ih =>
    rw [insertByFinalDesc]
    split
    · exact List.Perm.refl _
    · exact (ih.cons y).trans (List.Perm.swap x y ys)

/-- Membership through insertion. -/
lemma mem_insertByFinalDesc {z x : ScoredClaim} {l : List ScoredClaim} :
    z ∈ insertByFinalDesc x l ↔ z = x ∨ z ∈ l :=
  (insertByFinalDesc_perm x l).mem_iff.trans List.mem_cons

/-- Insertion preserves the descending sortedness on `final_score`. -/
lemma sorted_insertByFinalDesc (x : ScoredClaim) (l : List ScoredClaim)
    (hl : List.Sorted (fun a b => b.final_score ≤ a.final_score) l) :
    List.Sorted (fun a b => b.final_score ≤ a.final_score)
      (insertByFinalDesc x l) := by
  induction l with
  | nil => simp [insertByFinalDesc]
  | cons y ys ih =>
    rw [insertByFinalDesc]
    split
    · rename_i hyx
      rw [List.sorted_cons]
      refine ⟨?_, hl⟩
      intro b hb
      rcases List.mem_cons.mp hb with rfl | hb2
      · exact hyx
      · exact le_trans ((List.sorted_cons.mp hl).1 b hb2) hyx
    · rename_i hyx
      rw [List.sorted_cons] at hl
      rw [List.sorted_cons]
      refine ⟨?_, ih hl.2⟩
      intro b hb
      rcases mem_insertByFinalDesc.mp hb with rfl | hb2
      · exact (not_le.mp hyx).le
      · exact hl.1 b hb2

/-- The stable descending sort permutes its input. -/
lemma sortByFinalDesc_perm (l : List ScoredClaim) :
    (sortByFinalDesc l).Perm l := by
  induction l with
  | nil => exact List.Perm.refl _
  | cons x xs ih =>
    rw [sortByFinalDesc]
    exact (insertByFinalDesc_perm x (sortByFinalDesc xs)).trans (ih.cons x)

/-- The stable descending sort sorts. -/
lemma sortByFinalDesc_sorted (l : List ScoredClaim) :
    List.Sorted (fun a b => b.final_score ≤ a.final_score) (sortByFinalDesc l) := by
  induction l with
  | nil => simp [sortByFinalDesc]
  | cons x xs ih =>
    rw [sortByFinalDesc]
    exact sorted_insertByFinalDesc x (sortByFinalDesc xs) ih

/-- Insertion keeps equal-key elements in place: filtering on any fixed final
score commutes with the insertion, the new element going first among its
equals only when it heads the list. -/
lemma filter_insertByFinalDesc (x : ScoredClaim) (l : List ScoredClaim) (k : ℝ) :
    (insertByFinalDesc x l).filter (fun sc => decide (sc.final_score = k)) =
      if x.final_score = k then
        x :: l.filter (fun sc => decide (sc.final_score = k))
      else l.filter (fun sc => decide (sc.final_score = k)) := by
  induction l with
  | nil =>
    rw [insertByFinalDesc]
    by_cases hxk : x.final_score = k
    · simp [List.filter_cons, hxk]
    · simp [List.filter_cons, hxk]
  | cons y ys ih =>
    rw [insertByFinalDesc]
    split
    · rename_i hyx
      by_cases hxk : x.final_score = k
      · simp [List.filter_cons, hxk]
      · simp [List.filter_cons, hxk]
    · rename_i hyx
      by_cases hxk : x.final_score = k
      · have hyk : ¬ y.final_score = k := fun h =>
          hyx (le_of_eq (h.trans hxk.symm))
        simp [List.filter_cons, hyk, ih, hxk]
      · simp only [List.filter_cons, ih, hxk, if_false]

/-- The stable descending sort preserves the relative order of equal-score
elements: filtering on any fixed final score is invariant under the sort. -/
lemma filter_sortByFinalDesc (l : List ScoredClaim) (k : ℝ) :
    (sortByFinalDesc l).filter (fun sc => decide (sc.final_score = k)) =
      l.filter (fun sc => decide (sc.final_score = k)) := by
  induction l with
  | nil => rfl
  | cons x xs ih =>
    rw [sortByFinalDesc, filter_insertByFinalDesc]
    by_cases hxk : x.final_score = k
    · simp [List.filter_cons, hxk, ih]
    · simp [List.filter_cons, hxk, ih]

/-! ## Claim C7 -/

/-- The naive reference time used in the ranking counterexample. -/
def cexRef : Dt := ⟨10, none⟩

/-- A claim with no timestamps at all: freshness hits the floor `0.1`. -/
noncomputable def staleClaim : TClaim :=
  { verified_at := none
    created_at := none
    expiration_date := none
    confidence_score := some 0.5 }

/-- A claim verified 10 days before the reference: freshness `1.0`. -/
noncomputable def freshClaim : TClaim :=
  { verified_at := some ⟨0, none⟩
    created_at := none
    expiration_date := none
    confidence_score := some 0.3 }

/-- The scored record `rank_claims` builds for `staleClaim`. -/
noncomputable def staleScored : ScoredClaim :=
  { claim := staleClaim
    semantic_score := 0.5
    confidence_score := 0.5
    freshness_score := MIN_FRESHNESS_SCORE
    final_score := 0.42 }

/-- The scored record `rank_claims` builds for `freshClaim`. -/
noncomputable def freshScored : ScoredClaim :=
  { claim := freshClaim
    semantic_score := 0.25
    confidence_score := 0.3
    freshness_score := 1
    final_score := 0.42 }

/-- Evaluation of the per-candidate loop on `staleClaim`. -/
lemma scoreOne_staleClaim : scoreOne staleClaim 0.5 cexRef = .ok staleScored := by
  have hfA : calculate_freshness_score staleClaim cexRef = .ok MIN_FRESHNESS_SCORE := rfl
  have hcA : calculate_combined_score 0.5 0.5 MIN_FRESHNESS_SCORE = some 0.42 := by
    unfold calculate_combined_score
    rw [if_neg (by norm_num [SEMANTIC_WEIGHT, CONFIDENCE_WEIGHT, FRESHNESS_WEIGHT,
      abs_of_nonneg, abs_of_nonpos])]
    rw [Option.some_inj]
    norm_num [SEMANTIC_WEIGHT, CONFIDENCE_WEIGHT, FRESHNESS_WEIGHT, MIN_FRESHNESS_SCORE]
  simp only [scoreOne, hfA]
  rw [show staleClaim.confidence_score.getD 0.3 = 0.5 from rfl, hcA]
  rfl

/-- Evaluation of the per-candidate loop on `freshClaim`. -/
lemma scoreOne_freshClaim : scoreOne freshClaim 0.25 cexRef = .ok freshScored := by
  have hfB : calculate_freshness_score freshClaim cexRef = .ok 1 := by
    have hred := calculate_time_decay_eq_freshnessOfAge ⟨0, none⟩ none cexRef rfl rfl
    rw [show calculate_freshness_score freshClaim cexRef =
      calculate_time_decay (some ⟨0, none⟩) none cexRef from rfl, hred]
    norm_num [freshnessOfAge, FRESH_PERIOD_DAYS, cexRef]
  have hcB : calculate_combined_score 0.25 0.3 1 = some 0.42 := by
    unfold calculate_combined_score
    rw [if_neg (by norm_num [SEMANTIC_WEIGHT, CONFIDENCE_WEIGHT, FRESHNESS_WEIGHT,
      abs_of_nonneg, abs_of_nonpos])]
    rw [Option.some_inj]
    norm_num [SEMANTIC_WEIGHT, CONFIDENCE_WEIGHT, FRESHNESS_WEIGHT]
  simp only [scoreOne, hfB]
  rw [show freshClaim.confidence_score.getD 0.3 = 0.3 from rfl, hcB]
  rfl

/-- Evaluation of the scoring loop on the two-candidate input. -/
lemma scoredList_pair :
    scoredList [staleClaim, freshClaim] [0.5, 0.25] cexRef =
      .ok [staleScored, freshScored] := by
  simp only [scoredList, List.zip_cons_cons, List.zip_nil_right, scoredListAux,
    scoreOne_staleClaim, scoreOne_freshClaim]

/-- The stable sort leaves the equal-scored pair in input order. -/
lemma sortByFinalDesc_pair :
    sortByFinalDesc [staleScored, freshScored] = [staleScored, freshScored] := by
  simp only [sortByFinalDesc, insertByFinalDesc]
  rw [if_pos (by norm_num [staleScored, freshScored])]

/-- Evaluation of the full ranking on the two-candidate input. -/
lemma rank_claims_pair :
    rank_claims [staleClaim, freshClaim] [0.5, 0.25] cexRef =
      .ok [staleScored, freshScored] := by
  unfold rank_claims
  rw [if_neg (by simp), scoredList_pair]
  show Except.ok (sortByFinalDesc [staleScored, freshScored]) =
    Except.ok [staleScored, freshScored]
  rw [sortByFinalDesc_pair]

/-- Counterexample to C7 as stated: on two candidates with EQUAL final scores
(`0.42` each) the lower-freshness record (`0.1`) stays ahead of the
higher-freshness record (`1.0`) because `rank_claims` sorts by `final_score`
only, with Python's stable sort keeping the input order on ties — there is no
freshness or claim-identifier tie-break. -/
theorem rank_claims_no_freshness_tiebreak :
    (rank_claims [staleClaim, freshClaim] [0.5, 0.25] cexRef).map
        (fun l => l.map (fun sc => (sc.final_score, sc.freshness_score))) =
      .ok [(0.42, MIN_FRESHNESS_SCORE), (0.42, 1)] := by
  rw [rank_claims_pair]
  show Except.ok _ = _
  rw [Except.ok.injEq]
  simp [staleScored, freshScored]

/-- Claim C7 (amended): the list returned by `rank_claims` is sorted
descending by final combined score only; candidates with equal final scores
keep their input order (Python's `list.sort` is stable) — there is no
freshness-then-identifier tie-break.  The output is a permutation of the
scored input list and, for every fixed final score, filtering the output on
that score returns the same sequence as filtering the scored input. -/
theorem rank_claims_sorted_descending_stable :
    ∀ (claims : List TClaim) (semantic_scores : List ℝ) (reference_time : Dt)
      (l : List ScoredClaim),
      rank_claims claims semantic_scores reference_time = .ok l →
      ∃ s, scoredList claims semantic_scores reference_time = .ok s ∧
        List.Sorted (fun a b => b.final_score ≤ a.final_score) l ∧
        l.Perm s ∧
        (∀ k : ℝ, l.filter (fun sc => decide (sc.final_score = k)) =
          s.filter (fun sc => decide (sc.final_score = k))) := by
  intro claims scores ref l h
  unfold rank_claims at h
  split at h
  · exact absurd h (by simp)
  · rcases hs : scoredList claims scores ref with msg | s
    · rw [hs] at h
      simp at h
    · rw [hs] at h
      simp only [Except.ok.injEq] at h
      subst h
      exact ⟨s, rfl, sortByFinalDesc_sorted s, sortByFinalDesc_perm s,
        fun k => filter_sortByFinalDesc s k⟩

/-- Witness for amended C7 at a concrete ranking run. -/
theorem rank_claims_sorted_descending_stable_witness :
    ∃ s, scoredList [staleClaim, freshClaim] [0.5, 0.25] cexRef = .ok s ∧
      List.Sorted (fun a b => b.final_score ≤ a.final_score)
        [staleScored, freshScored] ∧
      List.Perm [staleScored, freshScored] s ∧
      (∀ k : ℝ,
        [staleScored, freshScored].filter (fun sc => decide (sc.final_score = k)) =
          s.filter (fun sc => decide (sc.final_score = k))) :=
  rank_claims_sorted_descending_stable [staleClaim, freshClaim] [0.5, 0.25]
    cexRef [staleScored, freshScored] rank_claims_pair

end RAG
